import Mathlib

/-!
Verification of `CPU_Thermal_DVFS.py`: a lumped RC thermal network of four
nodes (CPU core, SoC, package, board) driven by a workload power trace,
simulated with explicit forward-Euler steps, in two modes: free-running
(fixed voltage/frequency) and DVFS-controlled (hysteretic operating-point
state machine).  All arithmetic is embedded over `ℚ`; the Python floats are
decimal literals, represented exactly.  The simulations are parameterised by
the workload trace `cdyn` (in the script a seeded random sequence, external
to the core being verified) and by the initial state.
-/

namespace CPUThermalDVFS

/-- `dt = 0.01` -/
def dt : ℚ := 0.01

/-- `R1, C_cpu = 100.0, 0.01` -/
def R1 : ℚ := 100.0

def C_cpu : ℚ := 0.01

/-- `R2, C_board = 300.0, 3.0` -/
def R2 : ℚ := 300.0

def C_board : ℚ := 3.0

/-- `R3, C_amb = 60.0, 10000.0` -/
def R3 : ℚ := 60.0

def C_amb : ℚ := 10000.0

/-- `R4, C_pkg = 30.0, 5.0` -/
def R4 : ℚ := 30.0

def C_pkg : ℚ := 5.0

/-- `R5 = 30.0` -/
def R5 : ℚ := 30.0

/-- `T_ambient = 25.0` -/
def T_ambient : ℚ := 25.0

/-- `v_nom = 0.75` -/
def v_nom : ℚ := 0.75

/-- `f_nom = 2.0` -/
def f_nom : ℚ := 2.0

/-- `pleak_nom = 0.1` -/
def pleak_nom : ℚ := 0.1

/-- `dvfs_temp_limit = 85.0` -/
def dvfs_temp_limit : ℚ := 85.0

/-- `dvfs_hysteresis = 80.0` -/
def dvfs_hysteresis : ℚ := 80.0

/-- `voltages = np.array([0.75, 0.70, 0.65, 0.60, 0.55])`, the discrete DVFS levels. -/
def voltages : List ℚ := [0.75, 0.70, 0.65, 0.60, 0.55]

/-- The four node temperatures `T_cpu, T_soc, T_pkg, T_board`. -/
structure Thermal where
  T_cpu : ℚ
  T_soc : ℚ
  T_pkg : ℚ
  T_board : ℚ
  deriving DecidableEq, Repr

/-- One forward-Euler thermal update, shared verbatim by both simulation
loops (script lines 42-49 and 76-83): heat flows `q1, q2, q4` are computed
from the temperatures at the start of the step, then each node temperature
is advanced once. -/
def thermal_step (power_total : ℚ) (t : Thermal) : Thermal :=
  let q1 := (t.T_cpu - t.T_soc) / R1
  let q2 := (t.T_soc - t.T_board) / R2
  let q4 := (t.T_soc - t.T_pkg) / R4
  { T_cpu := t.T_cpu + dt / C_cpu * (power_total - q1)
    T_soc := t.T_soc + dt / C_board * (q1 - q2 - q4)
    T_pkg := t.T_pkg + dt / C_pkg * (q4 - (t.T_pkg - T_ambient) / R5)
    T_board := t.T_board + dt / C_amb * (q2 - (t.T_board - T_ambient) / R3) }

/-- Per-node temperature derivatives computed from one consistent snapshot
`t` of the node temperatures (spec's `ThermalNetworkModel` contract):
derivative = (injected power minus net outflow) / capacitance. -/
def node_derivs (power_total : ℚ) (t : Thermal) : Thermal :=
  let q1 := (t.T_cpu - t.T_soc) / R1
  let q2 := (t.T_soc - t.T_board) / R2
  let q4 := (t.T_soc - t.T_pkg) / R4
  { T_cpu := (power_total - q1) / C_cpu
    T_soc := (q1 - q2 - q4) / C_board
    T_pkg := (q4 - (t.T_pkg - T_ambient) / R5) / C_pkg
    T_board := (q2 - (t.T_board - T_ambient) / R3) / C_amb }

/-- Snapshot formulation of one integration step: every node is advanced by
`dt` times its derivative, all derivatives taken from the pre-step state. -/
def snapshot_step (power_total : ℚ) (t : Thermal) : Thermal :=
  let d := node_derivs power_total t
  { T_cpu := t.T_cpu + dt * d.T_cpu
    T_soc := t.T_soc + dt * d.T_soc
    T_pkg := t.T_pkg + dt * d.T_pkg
    T_board := t.T_board + dt * d.T_board }

/-- All nodes initialise to the ambient temperature
(`T_cpu = T_soc = T_board = T_pkg = T_ambient`). -/
def init_thermal : Thermal :=
  { T_cpu := T_ambient, T_soc := T_ambient, T_pkg := T_ambient, T_board := T_ambient }

/-- Free-running power (script lines 39-40):
`pdyn = cdyn_trace[i] * f_nom; power_total = pdyn + pleak_nom`. -/
def power_total_free (cdyn : ℚ) : ℚ :=
  let pdyn := cdyn * f_nom
  pdyn + pleak_nom

/-- DVFS-mode power (script lines 73-74):
`pdyn = cdyn_trace[i] * freq * (volt / v_nom)**2;
power_total = pdyn + pleak_nom`. -/
def power_total_dvfs (cdyn freq volt : ℚ) : ℚ :=
  let pdyn := cdyn * freq * (volt / v_nom) ^ 2
  pdyn + pleak_nom

/-- One free-running iteration (script lines 39-49): power computation
followed by the thermal update. -/
def free_step (cdyn : ℚ) (t : Thermal) : Thermal :=
  thermal_step (power_total_free cdyn) t

/-- `simulate_free_running`: fold `free_step` over the workload trace,
recording the post-step state of every iteration (the script records
`T_cpu_hist.append(T_cpu)`; here the whole state is recorded and `T_cpu`
projected where needed). -/
def simulate_free_running : List ℚ → Thermal → List Thermal
  | [], _ => []
  | cdyn :: rest, t =>
    let t' := free_step cdyn t
    t' :: simulate_free_running rest t'

/-- State of the DVFS-controlled simulation: node temperatures, the
controller's operating-point index `voltage_index`, and the frequency and
voltage selected at the step that produced this state (the script's
`freq_hist` / `volt_hist` entries). -/
structure SimState where
  th : Thermal
  voltage_index : ℕ
  freq : ℚ
  volt : ℚ
  deriving DecidableEq, Repr

/-- The DVFS transition rule with hysteresis (script lines 65-68), one
evaluation per step on the observed core temperature:
`if T_cpu > dvfs_temp_limit and voltage_index < len(voltages) - 1:
voltage_index += 1; elif T_cpu < dvfs_hysteresis and voltage_index > 0:
voltage_index -= 1`. -/
def dvfs_transition (T : ℚ) (voltage_index : ℕ) : ℕ :=
  if T > dvfs_temp_limit ∧ voltage_index < voltages.length - 1 then
    voltage_index + 1
  else if T < dvfs_hysteresis ∧ voltage_index > 0 then
    voltage_index - 1
  else
    voltage_index

/-- One DVFS-controlled iteration (script lines 64-87): update the index
from the observed (pre-step) core temperature, select
`volt = voltages[voltage_index]`, `freq = f_nom * (volt / v_nom)`, compute
`pdyn = cdyn_trace[i] * freq * (volt / v_nom)**2`,
`power_total = pdyn + pleak_nom`, then the thermal update.  The index is
always in range (proved below), so the total `List.getD` with default `0`
coincides with the script's `voltages[voltage_index]`. -/
def dvfs_step (cdyn : ℚ) (s : SimState) : SimState :=
  let voltage_index := dvfs_transition s.th.T_cpu s.voltage_index
  let volt := voltages.getD voltage_index 0
  let freq := f_nom * (volt / v_nom)
  { th := thermal_step (power_total_dvfs cdyn freq volt) s.th
    voltage_index := voltage_index
    freq := freq
    volt := volt }

/-- Initial DVFS state: all temperatures ambient,
`voltage_index = 0` (start at highest voltage); the `freq`/`volt` fields
carry the nominal operating point and are overwritten before ever being
recorded. -/
def init_sim : SimState :=
  { th := init_thermal, voltage_index := 0, freq := f_nom, volt := v_nom }

/-- `simulate_dvfs_strict`: fold `dvfs_step` over the workload trace,
recording the post-step state of every iteration (the script appends
`T_cpu`, `freq` and `volt` per iteration; all are fields of the recorded
state). -/
def simulate_dvfs_strict : List ℚ → SimState → List SimState
  | [], _ => []
  | cdyn :: rest, s =>
    let s' := dvfs_step cdyn s
    s' :: simulate_dvfs_strict rest s'

/-- The sequence of core temperatures observed by the controller: at each
iteration the transition rule reads `T_cpu` as left by the previous
iteration (initially the ambient start value). -/
def observed_temps : List ℚ → SimState → List ℚ
  | [], _ => []
  | cdyn :: rest, s => s.th.T_cpu :: observed_temps rest (dvfs_step cdyn s)

example : dvfs_transition 90 0 = 1 := by norm_num [dvfs_transition, dvfs_temp_limit, voltages]
example : dvfs_transition 90 4 = 4 := by norm_num [dvfs_transition, dvfs_temp_limit, dvfs_hysteresis, voltages]
example : dvfs_transition 70 3 = 2 := by norm_num [dvfs_transition, dvfs_temp_limit, dvfs_hysteresis, voltages]
example : dvfs_transition 82 2 = 2 := by norm_num [dvfs_transition, dvfs_temp_limit, dvfs_hysteresis, voltages]
example : (free_step 1 init_thermal).T_cpu = 27.1 := by
  norm_num [free_step, thermal_step, power_total_free, init_thermal, dt, C_cpu, R1, f_nom,
    pleak_nom, T_ambient]

/-! ### Helper lemmas -/

lemma dvfs_transition_lt (T : ℚ) (i : ℕ) (h : i < voltages.length) :
    dvfs_transition T i < voltages.length := by
  unfold dvfs_transition
  split_ifs with h1 h2
  · rcases h1 with ⟨-, h1⟩
    omega
  · omega
  · exact h

lemma voltage_index_lt_of_mem {trace : List ℚ} {s : SimState}
    (hs : s.voltage_index < voltages.length) :
    ∀ st ∈ simulate_dvfs_strict trace s, st.voltage_index < voltages.length := by
  induction trace generalizing s with
  | nil => simp [simulate_dvfs_strict]
  | cons a rest ih =>
    intro st hst
    simp only [simulate_dvfs_strict] at hst
    rcases List.mem_cons.mp hst with h | h
    · subst h
      exact dvfs_transition_lt _ _ hs
    · exact ih (dvfs_transition_lt _ _ hs) st h

/-- C1: for every finite workload trace, the DVFS controller's
operating-point index starts at 0 and after every per-step transition
stays within `[0, N-1]` where `N = voltages.length` (the lower bound is
enforced by the `ℕ` index together with the `voltage_index > 0` guard). -/
theorem C1_index_bounded (trace : List ℚ) :
    init_sim.voltage_index = 0 ∧
    ∀ st ∈ simulate_dvfs_strict trace init_sim, st.voltage_index < voltages.length :=
  ⟨rfl, voltage_index_lt_of_mem (by norm_num [init_sim, voltages])⟩

theorem C1_witness : (dvfs_step 100 init_sim).voltage_index < voltages.length :=
  (C1_index_bounded [100]).2 _ (by simp [simulate_dvfs_strict])

/-- C2: one evaluation of the DVFS transition rule changes the index by at
most 1 — it increments by exactly 1, decrements by exactly 1 (only from a
positive index), or leaves it unchanged, for every observed temperature
and every current index. -/
theorem C2_rate_limited (T : ℚ) (i : ℕ) :
    dvfs_transition T i = i + 1 ∨
    (0 < i ∧ dvfs_transition T i = i - 1) ∨
    dvfs_transition T i = i := by
  unfold dvfs_transition
  split_ifs with h1 h2
  · exact Or.inl rfl
  · exact Or.inr (Or.inl ⟨h2.2, rfl⟩)
  · exact Or.inr (Or.inr rfl)

/-- C3: hysteresis — a step can decrement the index only when the observed
temperature is strictly below the lower threshold (so after any increment
the index is never decremented until the temperature falls strictly below
`dvfs_hysteresis`), and a step whose observed temperature lies in the
closed band `[dvfs_hysteresis, dvfs_temp_limit]` leaves the index
unchanged. -/
theorem C3_hysteresis (T : ℚ) (i : ℕ) :
    (dvfs_transition T i < i → T < dvfs_hysteresis) ∧
    (dvfs_hysteresis ≤ T → T ≤ dvfs_temp_limit → dvfs_transition T i = i) := by
  constructor
  · intro hlt
    unfold dvfs_transition at hlt
    split_ifs at hlt with h1 h2
    · omega
    · exact h2.1
    · omega
  · intro hlo hhi
    unfold dvfs_transition
    split_ifs with h1 h2
    · exact absurd h1.1 (by linarith)
    · exact absurd h2.1 (by linarith)
    · rfl

theorem C3_witness : dvfs_transition 82 2 = 2 :=
  (C3_hysteresis 82 2).2 (by norm_num [dvfs_hysteresis]) (by norm_num [dvfs_temp_limit])

lemma voltages_getD_nonneg (i : ℕ) : 0 ≤ voltages.getD i 0 := by
  match i with
  | 0 => norm_num [voltages]
  | 1 => norm_num [voltages]
  | 2 => norm_num [voltages]
  | 3 => norm_num [voltages]
  | 4 => norm_num [voltages]
  | n + 5 => simp [voltages, List.getD_eq_default]

/-- C5: in both simulation modes the per-step total power is the dynamic
term `activity × frequency × (voltage ratio)²` plus the constant leakage
term (in free-running mode the operating point is nominal, so the ratio is
1 and the frequency `f_nom`), and for every non-negative activity sample
and every catalog index the total power is at least the leakage constant. -/
theorem C5_power_model (a f volt : ℚ) (ha : 0 ≤ a) :
    power_total_dvfs a f volt = a * f * (volt / v_nom) ^ 2 + pleak_nom ∧
    power_total_free a = a * f_nom * 1 ^ 2 + pleak_nom ∧
    (∀ i : ℕ, pleak_nom ≤
      power_total_dvfs a (f_nom * (voltages.getD i 0 / v_nom)) (voltages.getD i 0)) ∧
    pleak_nom ≤ power_total_free a := by
  refine ⟨rfl, by norm_num [power_total_free], ?_, ?_⟩
  · intro i
    have hv := voltages_getD_nonneg i
    have hr : 0 ≤ voltages.getD i 0 / v_nom := div_nonneg hv (by norm_num [v_nom])
    have hf : 0 ≤ f_nom * (voltages.getD i 0 / v_nom) :=
      mul_nonneg (by norm_num [f_nom]) hr
    have hp : 0 ≤ a * (f_nom * (voltages.getD i 0 / v_nom)) * (voltages.getD i 0 / v_nom) ^ 2 :=
      mul_nonneg (mul_nonneg ha hf) (sq_nonneg _)
    show pleak_nom ≤
      a * (f_nom * (voltages.getD i 0 / v_nom)) * (voltages.getD i 0 / v_nom) ^ 2 + pleak_nom
    linarith
  · have hp : 0 ≤ a * f_nom := mul_nonneg ha (by norm_num [f_nom])
    show pleak_nom ≤ a * f_nom + pleak_nom
    linarith

theorem C5_witness : pleak_nom ≤ power_total_free 1 :=
  (C5_power_model 1 f_nom v_nom (by norm_num)).2.2.2

/-- C6: both simulation loops advance all four node temperatures from one
consistent snapshot of the pre-step temperatures: the thermal update each
mode performs equals the snapshot formulation in which every node moves by
`dt` times its derivative, all derivatives evaluated at the start-of-step
state (no update reads a sibling value already updated within the step). -/
theorem C6_snapshot_consistent (p a cdyn : ℚ) (t : Thermal) (s : SimState) :
    thermal_step p t = snapshot_step p t ∧
    free_step a t = snapshot_step (power_total_free a) t ∧
    (dvfs_step cdyn s).th =
      snapshot_step
        (power_total_dvfs cdyn
          (f_nom * (voltages.getD (dvfs_transition s.th.T_cpu s.voltage_index) 0 / v_nom))
          (voltages.getD (dvfs_transition s.th.T_cpu s.voltage_index) 0)) s.th := by
  have key : ∀ (q : ℚ) (u : Thermal), thermal_step q u = snapshot_step q u := by
    intro q u
    simp only [thermal_step, snapshot_step, node_derivs, Thermal.mk.injEq]
    refine ⟨by ring, by ring, by ring, by ring⟩
  exact ⟨key p t, key _ t, key _ s.th⟩

lemma freq_eq_of_mem {trace : List ℚ} {s : SimState} :
    ∀ st ∈ simulate_dvfs_strict trace s, st.freq = f_nom * (st.volt / v_nom) := by
  induction trace generalizing s with
  | nil => simp [simulate_dvfs_strict]
  | cons a rest ih =>
    intro st hst
    simp only [simulate_dvfs_strict] at hst
    rcases List.mem_cons.mp hst with h | h
    · subst h
      rfl
    · exact ih st h

/-- C7: the operating-point catalog has voltage values strictly decreasing
with index, and at every step of the controlled simulation the selected
frequency equals the nominal frequency times (selected voltage / nominal
voltage). -/
theorem C7_catalog (trace : List ℚ) :
    List.Pairwise (fun a b => b < a) voltages ∧
    ∀ st ∈ simulate_dvfs_strict trace init_sim, st.freq = f_nom * (st.volt / v_nom) :=
  ⟨by norm_num [voltages], freq_eq_of_mem⟩

theorem C7_witness :
    (dvfs_step 1 init_sim).freq = f_nom * ((dvfs_step 1 init_sim).volt / v_nom) :=
  (C7_catalog [1]).2 _ (by simp [simulate_dvfs_strict])

/-- C9: determinism — both simulation functions are pure functions of the
workload trace and initial state, so two runs with the same configuration
and trace produce identical trajectories. -/
theorem C9_deterministic (tr1 tr2 : List ℚ) (s1 s2 : SimState) (t1 t2 : Thermal)
    (htr : tr1 = tr2) (hs : s1 = s2) (ht : t1 = t2) :
    simulate_dvfs_strict tr1 s1 = simulate_dvfs_strict tr2 s2 ∧
    simulate_free_running tr1 t1 = simulate_free_running tr2 t2 := by
  subst htr
  subst hs
  subst ht
  exact ⟨rfl, rfl⟩

theorem C9_witness :
    simulate_dvfs_strict [1] init_sim = simulate_dvfs_strict [1] init_sim :=
  (C9_deterministic [1] [1] init_sim init_sim init_thermal init_thermal rfl rfl rfl).1

lemma dvfs_transition_at_zero (T : ℚ) (hT : T ≤ dvfs_temp_limit) :
    dvfs_transition T 0 = 0 := by
  unfold dvfs_transition
  split_ifs with h1 h2
  · exact absurd h1.1 (by linarith)
  · exact absurd h2.2 (by omega)
  · rfl

lemma dvfs_step_at_zero (a : ℚ) (s : SimState) (hidx : s.voltage_index = 0)
    (hT : s.th.T_cpu ≤ dvfs_temp_limit) :
    (dvfs_step a s).th = free_step a s.th ∧ (dvfs_step a s).voltage_index = 0 := by
  have htr : dvfs_transition s.th.T_cpu s.voltage_index = 0 := by
    rw [hidx]
    exact dvfs_transition_at_zero _ hT
  have hp : power_total_dvfs a (f_nom * (voltages.getD 0 0 / v_nom)) (voltages.getD 0 0) =
      power_total_free a := by
    norm_num [power_total_dvfs, power_total_free, voltages, v_nom]
  constructor
  · show thermal_step
        (power_total_dvfs a
          (f_nom * (voltages.getD (dvfs_transition s.th.T_cpu s.voltage_index) 0 / v_nom))
          (voltages.getD (dvfs_transition s.th.T_cpu s.voltage_index) 0)) s.th =
      thermal_step (power_total_free a) s.th
    rw [htr, hp]
  · show dvfs_transition s.th.T_cpu s.voltage_index = 0
    exact htr

lemma dvfs_free_coupled (trace : List ℚ) :
    ∀ s : SimState, s.voltage_index = 0 →
    (∀ T ∈ observed_temps trace s, T ≤ dvfs_temp_limit) →
    (simulate_dvfs_strict trace s).map SimState.th = simulate_free_running trace s.th ∧
    ∀ st ∈ simulate_dvfs_strict trace s, st.voltage_index = 0 := by
  induction trace with
  | nil =>
    intro s _ _
    simp [simulate_dvfs_strict, simulate_free_running]
  | cons a rest ih =>
    intro s hidx hobs
    have hT : s.th.T_cpu ≤ dvfs_temp_limit := hobs _ (by simp [observed_temps])
    have hobs' : ∀ T ∈ observed_temps rest (dvfs_step a s), T ≤ dvfs_temp_limit := by
      intro T hmem
      exact hobs T (by simp [observed_temps, hmem])
    obtain ⟨hth, hz⟩ := dvfs_step_at_zero a s hidx hT
    obtain ⟨ih1, ih2⟩ := ih (dvfs_step a s) hz hobs'
    constructor
    · simp only [simulate_dvfs_strict, simulate_free_running, List.map_cons]
      rw [← hth]
      exact congrArg (List.cons (dvfs_step a s).th) ih1
    · intro st hst
      simp only [simulate_dvfs_strict] at hst
      rcases List.mem_cons.mp hst with h | h
      · subst h
        exact hz
      · exact ih2 st h

/-- C10: for every workload trace on which the observed core temperature
never exceeds the upper threshold during the controlled run, the controller
index stays 0 throughout and the controlled run's core-temperature
trajectory is identical to the free-running run's on the same trace. -/
theorem C10_free_running_equiv (trace : List ℚ)
    (hobs : ∀ T ∈ observed_temps trace init_sim, T ≤ dvfs_temp_limit) :
    (∀ st ∈ simulate_dvfs_strict trace init_sim, st.voltage_index = 0) ∧
    (simulate_dvfs_strict trace init_sim).map (fun st => st.th.T_cpu) =
      (simulate_free_running trace init_thermal).map Thermal.T_cpu := by
  obtain ⟨h1, h2⟩ := dvfs_free_coupled trace init_sim rfl hobs
  refine ⟨h2, ?_⟩
  have hmap : (simulate_dvfs_strict trace init_sim).map (fun st => st.th.T_cpu) =
      ((simulate_dvfs_strict trace init_sim).map SimState.th).map Thermal.T_cpu := by
    rw [List.map_map]
    rfl
  rw [hmap, h1]
  rfl

theorem C10_witness :
    (simulate_dvfs_strict [0] init_sim).map (fun st => st.th.T_cpu) =
      (simulate_free_running [0] init_thermal).map Thermal.T_cpu :=
  (C10_free_running_equiv [0]
    (by norm_num [observed_temps, init_sim, init_thermal, T_ambient, dvfs_temp_limit])).2

lemma length_simulate_dvfs (trace : List ℚ) :
    ∀ s : SimState, (simulate_dvfs_strict trace s).length = trace.length := by
  induction trace with
  | nil => intro s; rfl
  | cons a rest ih =>
    intro s
    simp [simulate_dvfs_strict, ih]

lemma simulate_dvfs_getD_succ (trace : List ℚ) :
    ∀ (s d : SimState) (i : ℕ), i + 1 < trace.length →
    (simulate_dvfs_strict trace s).getD (i + 1) d =
      dvfs_step (trace.getD (i + 1) 0) ((simulate_dvfs_strict trace s).getD i d) := by
  induction trace with
  | nil =>
    intro s d i h
    simp at h
  | cons a rest ih =>
    intro s d i h
    cases i with
    | zero =>
      cases rest with
      | nil => simp at h
      | cons b rest' =>
        simp [simulate_dvfs_strict, List.getD_cons_succ, List.getD_cons_zero]
    | succ j =>
      have h' : j + 1 < rest.length := by
        simp only [List.length_cons] at h
        omega
      simp only [simulate_dvfs_strict, List.getD_cons_succ]
      exact ih (dvfs_step a s) d j h'

lemma dvfs_transition_over_limit (T : ℚ) (i : ℕ) (hT : T > dvfs_temp_limit)
    (hi : i < voltages.length) :
    i < dvfs_transition T i ∨
    (i = voltages.length - 1 ∧ dvfs_transition T i = i) := by
  unfold dvfs_transition
  split_ifs with h1 h2
  · exact Or.inl (Nat.lt_succ_self i)
  · have hband : dvfs_hysteresis < dvfs_temp_limit := by
      norm_num [dvfs_hysteresis, dvfs_temp_limit]
    exact absurd h2.1 (by linarith)
  · refine Or.inr ⟨?_, rfl⟩
    have hge : ¬ i < voltages.length - 1 := fun hl => h1 ⟨hT, hl⟩
    omega

/-- C4 (amended): in the controlled run, whenever the core temperature at
some step exceeds `dvfs_temp_limit` (85 °C), the operating-point index used
at the next step is strictly greater than the index used at that step,
unless that index is already the last catalog index `N-1 = 4`, in which
case it stays exactly there (it is never decreased at that instant). -/
theorem C4_throttle_on_limit (trace : List ℚ) (i : ℕ) (h : i + 1 < trace.length)
    (hT : ((simulate_dvfs_strict trace init_sim).getD i init_sim).th.T_cpu > dvfs_temp_limit) :
    ((simulate_dvfs_strict trace init_sim).getD i init_sim).voltage_index <
      ((simulate_dvfs_strict trace init_sim).getD (i + 1) init_sim).voltage_index ∨
    (((simulate_dvfs_strict trace init_sim).getD i init_sim).voltage_index =
        voltages.length - 1 ∧
      ((simulate_dvfs_strict trace init_sim).getD (i + 1) init_sim).voltage_index =
        ((simulate_dvfs_strict trace init_sim).getD i init_sim).voltage_index) := by
  have hilen : i < (simulate_dvfs_strict trace init_sim).length := by
    rw [length_simulate_dvfs]
    omega
  have hmem : (simulate_dvfs_strict trace init_sim).getD i init_sim ∈
      simulate_dvfs_strict trace init_sim := by
    rw [List.getD_eq_getElem _ _ hilen]
    exact List.getElem_mem hilen
  have hlt : ((simulate_dvfs_strict trace init_sim).getD i init_sim).voltage_index <
      voltages.length :=
    voltage_index_lt_of_mem (by norm_num [init_sim, voltages]) _ hmem
  rw [simulate_dvfs_getD_succ trace init_sim init_sim i h]
  exact dvfs_transition_over_limit _ _ hT hlt

theorem C4_witness :
    ((simulate_dvfs_strict [100, 100] init_sim).getD 0 init_sim).voltage_index <
      ((simulate_dvfs_strict [100, 100] init_sim).getD 1 init_sim).voltage_index ∨
    (((simulate_dvfs_strict [100, 100] init_sim).getD 0 init_sim).voltage_index =
        voltages.length - 1 ∧
      ((simulate_dvfs_strict [100, 100] init_sim).getD 1 init_sim).voltage_index =
        ((simulate_dvfs_strict [100, 100] init_sim).getD 0 init_sim).voltage_index) :=
  C4_throttle_on_limit [100, 100] 0 (by norm_num)
    (by norm_num [simulate_dvfs_strict, dvfs_step, dvfs_transition, thermal_step,
      power_total_dvfs, dvfs_temp_limit, dvfs_hysteresis, voltages, dt, R1, C_cpu, R2, C_board,
      R3, C_amb, R4, C_pkg, R5, T_ambient, v_nom, f_nom, pleak_nom, init_sim, init_thermal,
      List.getD_cons_zero])

/-- C4 (counterexample to the claim as stated): on the constant workload
trace of six samples of 100 W/GHz, the core temperature after step 4
exceeds 85 °C while the index used at step 4 is already the last catalog
index, so the index used at step 5 equals it instead of being strictly
greater. -/
theorem C4_counterexample :
    ((simulate_dvfs_strict [100, 100, 100, 100, 100, 100] init_sim).getD 4 init_sim).th.T_cpu >
      dvfs_temp_limit ∧
    ¬ (((simulate_dvfs_strict [100, 100, 100, 100, 100, 100] init_sim).getD 4
          init_sim).voltage_index <
        ((simulate_dvfs_strict [100, 100, 100, 100, 100, 100] init_sim).getD 5
          init_sim).voltage_index) := by
  norm_num [simulate_dvfs_strict, dvfs_step, dvfs_transition, thermal_step, power_total_dvfs,
    dvfs_temp_limit, dvfs_hysteresis, voltages, dt, R1, C_cpu, R2, C_board, R3, C_amb, R4,
    C_pkg, R5, T_ambient, v_nom, f_nom, pleak_nom, init_sim, init_thermal, List.getD]

end CPUThermalDVFS
